import Mathlib

/-
Verification of the alert / price-lookup core of `bot.py` (Raghav-2611/cryptobot).

The embedding models:
  * the module-level dict `user_alerts` (bot.py line 147) as an association
    list in insertion order, with Python dict semantics for item assignment
    (overwrite in place, else append), deletion, and the CPython rule that a
    `for` loop over `dict.items()` raises `RuntimeError` at the next step of
    the iterator after the dict's size has changed;
  * `get_crypto_price` (lines 126-130): the external HTTP/JSON exchange is an
    oracle `api : String -> Except Unit (Option Rat)`, where `.error` stands
    for a raised requests exception, `.ok none` for a JSON body missing the
    coin (so `data.get(crypto, {}).get(currency, ...)` yields the fallback
    string), and `.ok (some q)` for a numeric price;
  * Python values flowing out of `get_crypto_price` as `PyVal` (a float or a
    str), with the comparisons of line 169 raising `TypeError` on str vs
    float;
  * `alert_check` (lines 166-171), `set_price_alert` (149-150),
    `set_alert_command` (152-164) and the three market-data helpers
    (lines 21-55).

Prices and thresholds are embedded as rationals; the concrete values that
appear below are exactly representable as Python floats, so the rational
arithmetic agrees with the source on them.
-/

/-- A Python value returned by `get_crypto_price`: either a float (embedded
as a rational) or a str (the `'Price not available'` fallback). -/
inductive PyVal where
  | num (q : ℚ)
  | str (s : String)
deriving DecidableEq, Repr

/-- The tuple `(crypto, threshold_price, condition)` stored in `user_alerts`
by `set_price_alert` (bot.py line 150). The condition is kept as the string
`"above"` / `"below"`, exactly as the source stores it. -/
structure Alert where
  crypto : String
  threshold : ℚ
  condition : String
deriving DecidableEq, Repr

/-- The `user_alerts` dict (bot.py line 147): user id -> alert tuple, in
insertion order, as CPython dicts preserve it. -/
abbrev Registry := List (Nat × Alert)

/-- Python `user_alerts.get(uid)` / `user_alerts[uid]`: first (and under
`NodupKeys` only) binding of the key. -/
def dictGet (reg : Registry) (uid : Nat) : Option Alert :=
  match reg with
  | [] => none
  | (u, a) :: rest => if u = uid then some a else dictGet rest uid

/-- Python `user_alerts[uid] = a`: overwrite the key's binding in place if
present, otherwise append at the end (CPython dict insertion-order
semantics). -/
def dictSet : Registry → Nat → Alert → Registry
  | [], uid, a => [(uid, a)]
  | (u, b) :: rest, uid, a =>
    if u = uid then (uid, a) :: rest else (u, b) :: dictSet rest uid a

/-- Python `del user_alerts[uid]`: drop the key's binding. -/
def dictDel : Registry → Nat → Registry
  | [], _ => []
  | (u, a) :: rest, uid =>
    if u = uid then dictDel rest uid else (u, a) :: dictDel rest uid

/-- The dict invariant: each user id is bound at most once. -/
def NodupKeys (reg : Registry) : Prop := (reg.map Prod.fst).Nodup

instance (reg : Registry) : Decidable (NodupKeys reg) := by
  unfold NodupKeys; infer_instance

/-- `get_crypto_price` (bot.py lines 126-130): performs `requests.get` on the
`/simple/price` endpoint and returns `data.get(crypto, {}).get(currency,
'Price not available')`. The oracle `api` is the outcome of that HTTP/JSON
exchange for the given coin (currency is the default `'usd'`, already baked
into the oracle): a raised requests exception propagates (`.error`), a body
without the coin yields the fallback str, a numeric entry yields the float. -/
def get_crypto_price (api : String → Except Unit (Option ℚ)) (crypto : String) :
    Except Unit PyVal :=
  match api crypto with
  | .error e => .error e
  | .ok none => .ok (.str "Price not available")
  | .ok (some q) => .ok (.num q)

/-- Python `price > threshold_price` (bot.py line 169): float vs float
compares numerically, str vs float raises `TypeError`. -/
def pyCompareGt (v : PyVal) (t : ℚ) : Except Unit Bool :=
  match v with
  | .num q => .ok (decide (t < q))
  | .str _ => .error ()

/-- Python `price < threshold_price` (bot.py line 169). -/
def pyCompareLt (v : PyVal) (t : ℚ) : Except Unit Bool :=
  match v with
  | .num q => .ok (decide (q < t))
  | .str _ => .error ()

/-- The guard of bot.py line 169,
`(condition == 'above' and price > threshold_price) or
 (condition == 'below' and price < threshold_price)`,
with Python short-circuit evaluation: the left disjunct is evaluated first
(raising if it compares a str), and the right disjunct only if the left is
falsy. -/
def condHolds (condition : String) (v : PyVal) (t : ℚ) : Except Unit Bool :=
  match (if condition = "above" then pyCompareGt v t else .ok false) with
  | .error e => .error e
  | .ok true => .ok true
  | .ok false => if condition = "below" then pyCompareLt v t else .ok false

/-- The exception that ends an evaluation pass, if any: a requests exception
out of `get_crypto_price`, a `TypeError` from comparing the fallback str with
a float, a failed `bot.send_message`, or the CPython `RuntimeError`
(`dictionary changed size during iteration`) raised by the `for` iterator at
its next step after `del user_alerts[user_id]`. -/
inductive PassErr where
  | fetchError | typeError | notifyError | runtimeError
deriving DecidableEq, Repr

/-- Observable outcome of one `alert_check` pass: the final registry, the
user ids notified (in order), and the exception that ended the pass, if any. -/
structure PassResult where
  registry : Registry
  notified : List Nat
  err : Option PassErr
deriving DecidableEq, Repr

/-- The `for user_id, (crypto, threshold_price, condition) in
user_alerts.items()` loop of `alert_check` (bot.py lines 167-171), iterating
the dict's entries in order. `n uid` says whether `bot.send_message` to `uid`
succeeds. After a `del` the next call to the dict iterator raises
`RuntimeError`, so a pass ends (with state already mutated) at the step right
after the first firing; any raised exception propagates out of the pass. -/
def alertCheckGo (api : String → Except Unit (Option ℚ)) (n : Nat → Bool) :
    List (Nat × Alert) → Registry → PassResult
  | [], reg => ⟨reg, [], none⟩
  | (uid, a) :: rest, reg =>
    match get_crypto_price api a.crypto with
    | .error _ => ⟨reg, [], some .fetchError⟩
    | .ok v =>
      match condHolds a.condition v a.threshold with
      | .error _ => ⟨reg, [], some .typeError⟩
      | .ok false => alertCheckGo api n rest reg
      | .ok true =>
        if n uid then ⟨dictDel reg uid, [uid], some .runtimeError⟩
        else ⟨reg, [], some .notifyError⟩

/-- `alert_check` (bot.py lines 166-171): one evaluation pass over
`user_alerts`. The iterator ranges over the entries present when the loop
starts, which—as the loop body only ever deletes the current key and any
deletion ends the pass at the next iterator step—are the entries of `reg`
itself. -/
def alert_check (api : String → Except Unit (Option ℚ)) (n : Nat → Bool)
    (reg : Registry) : PassResult :=
  alertCheckGo api n reg reg

/-- `set_price_alert` (bot.py lines 149-150):
`user_alerts[user_id] = (crypto, threshold_price, condition)`. -/
def set_price_alert (reg : Registry) (user_id : Nat) (crypto : String)
    (threshold_price : ℚ) (condition : String) : Registry :=
  dictSet reg user_id ⟨crypto, threshold_price, condition⟩

/-- Python `str.lower()` restricted to ASCII, character by character (the
tokens the command compares against are ASCII). -/
def strLower (s : String) : String := ⟨s.data.map Char.toLower⟩

/-- Accumulate a decimal digit string, `none` on a non-digit. -/
def pushDigit (acc : Option Nat) (c : Char) : Option Nat :=
  match acc with
  | none => none
  | some m => if c.isDigit then some (m * 10 + (c.toNat - 48)) else none

/-- `none` unless the characters are a nonempty run of decimal digits. -/
def digitRun (cs : List Char) : Option Nat :=
  match cs with
  | [] => none
  | _ => cs.foldl pushDigit (some 0)

/-- Python `float(s)` on plain unsigned decimal literals: a nonempty digit
run, optionally followed by `.` and a digit run (either side of the dot may
be empty, not both); anything else raises `ValueError` (`none`). Exponent,
infinity, nan and whitespace forms are outside the literals considered here. -/
def pyFloatCore (cs : List Char) : Option ℚ :=
  match cs.span (fun c => c ≠ '.') with
  | (ip, []) => (digitRun ip).map (fun m => (m : ℚ))
  | (ip, _dot :: fp) =>
    if fp.contains '.' then none
    else
      match digitRun ip, digitRun fp with
      | some m, some f => some (mkRat (m * 10 ^ fp.length + f) (10 ^ fp.length))
      | some m, none => if fp = [] then some ((m : ℚ)) else none
      | none, some f => if ip = [] then some (mkRat f (10 ^ fp.length)) else none
      | none, none => none

/-- Python `float(s)` with an optional sign. -/
def pyFloat (s : String) : Option ℚ :=
  match s.data with
  | '-' :: rest => (pyFloatCore rest).map Neg.neg
  | '+' :: rest => pyFloatCore rest
  | cs => pyFloatCore cs

/-- The reply `set_alert_command` sends, abstracting the message text: the
usage line (fewer than three args, line 154), the `"Specify 'above' or
'below'."` line (159-160), or the confirmation line (164). -/
inductive SetAlertReply where
  | usage
  | badCondition
  | confirmation (crypto : String) (condition : String) (price : ℚ)
deriving DecidableEq, Repr

/-- `set_alert_command` (bot.py lines 152-164) on an incoming command with
arguments `args` from user `uid`, acting on registry `reg`. Returns the reply
sent (`none` when `float(context.args[2])` raises `ValueError` at line 158,
in which case no reply is sent and the exception propagates to the
application's error handler) and the resulting registry. Note the source
parses the threshold at line 158 BEFORE checking the condition token at
line 159. -/
def set_alert_command (args : List String) (uid : Nat) (reg : Registry) :
    Option SetAlertReply × Registry :=
  if args.length < 3 then (some .usage, reg)
  else
    let crypto := strLower (args.getD 0 "")
    let condition := strLower (args.getD 1 "")
    match pyFloat (args.getD 2 "") with
    | none => (none, reg)
    | some price =>
      if ¬ (condition = "above" ∨ condition = "below") then (some .badCondition, reg)
      else (some (.confirmation crypto condition price),
            set_price_alert reg uid crypto price condition)

/-- Outcome of one `requests.get` as the market-data helpers observe it: a
raised `requests.RequestException`, or a response with a status code and the
parsed JSON body (the body is read only on status 200). -/
inductive HttpOutcome (β : Type) where
  | exn
  | resp (status : Nat) (body : β)

/-- `get_top_cryptos` (bot.py lines 21-34): returns `response.json()` on
status 200, falls through to `[]` on any other status, and catches
`requests.RequestException` returning `[]`. -/
def get_top_cryptos {α : Type} (h : HttpOutcome (List α)) : List α :=
  match h with
  | .resp status body => if status = 200 then body else []
  | .exn => []

/-- `get_trending_cryptos` (bot.py lines 37-44): on status 200 returns
`response.json().get('coins', [])` (the body's optional `coins` field, `[]`
when absent); `[]` on any other status or a raised `RequestException`. -/
def get_trending_cryptos {α : Type} (h : HttpOutcome (Option (List α))) : List α :=
  match h with
  | .resp status coinsField => if status = 200 then coinsField.getD [] else []
  | .exn => []

/-- `get_crypto_details` (bot.py lines 47-55): on status 200 returns
`response.json().get(crypto_id)` (the body as a lookup keyed by coin id);
`None` on any other status or a raised `RequestException`. -/
def get_crypto_details {γ : Type} (h : HttpOutcome (String → Option γ))
    (crypto_id : String) : Option γ :=
  match h with
  | .resp status body => if status = 200 then body crypto_id else none
  | .exn => none

/-- Call-counting semantics of `get_crypto_price`: `api k` is the external
service's response to the `k`-th HTTP request the process makes. Since
`get_crypto_price` begins with an unconditional `requests.get` (bot.py
line 128) — there is no cache in front of it — each invocation consumes one
request index. -/
def get_crypto_price_traced (api : Nat → Except Unit (Option ℚ))
    (crypto : String) (calls : Nat) : Except Unit PyVal × Nat :=
  (get_crypto_price (fun _ => api calls) crypto, calls + 1)

/-- A sequence of `get_crypto_price` invocations, threading the count of
HTTP requests issued so far; returns the values observed and the final
count. -/
def runLookups (api : Nat → Except Unit (Option ℚ)) (queries : List String)
    (calls : Nat) : List (Except Unit PyVal) × Nat :=
  match queries with
  | [] => ([], calls)
  | q :: qs =>
    let r := get_crypto_price_traced api q calls
    let rest := runLookups api qs r.2
    (r.1 :: rest.1, rest.2)

theorem dictGet_dictDel_self (reg : Registry) (uid : Nat) :
    dictGet (dictDel reg uid) uid = none := by
  induction reg with
  | nil => rfl
  | cons hd tl ih =>
    obtain ⟨u, a⟩ := hd
    by_cases h : u = uid <;> simp [dictDel, dictGet, h, ih]

theorem dictGet_dictDel_ne (reg : Registry) (u uid : Nat) (h : uid ≠ u) :
    dictGet (dictDel reg u) uid = dictGet reg uid := by
  induction reg with
  | nil => rfl
  | cons hd tl ih =>
    obtain ⟨w, a⟩ := hd
    by_cases hw : w = u
    · subst hw
      have hne : ¬ (w = uid) := fun hc => h (hc ▸ rfl)
      simp [dictDel, dictGet, hne, ih]
    · by_cases hwu : w = uid
      · subst hwu
        simp [dictDel, dictGet, hw]
      · simp [dictDel, dictGet, hw, hwu, ih]

theorem dictGet_eq_none_iff (reg : Registry) (uid : Nat) :
    dictGet reg uid = none ↔ uid ∉ reg.map Prod.fst := by
  induction reg with
  | nil => simp [dictGet]
  | cons hd tl ih =>
    obtain ⟨u, a⟩ := hd
    by_cases h : u = uid
    · subst h
      simp [dictGet]
    · have h2 : ¬ (uid = u) := fun hc => h hc.symm
      simp [dictGet, h, h2, ih]

theorem dictGet_dictSet_self (reg : Registry) (uid : Nat) (a : Alert) :
    dictGet (dictSet reg uid a) uid = some a := by
  induction reg with
  | nil => simp [dictSet, dictGet]
  | cons hd tl ih =>
    obtain ⟨u, b⟩ := hd
    by_cases h : u = uid <;> simp [dictSet, dictGet, h, ih]

theorem dictGet_dictSet_ne (reg : Registry) (uid : Nat) (a : Alert) (y : Nat)
    (h : y ≠ uid) :
    dictGet (dictSet reg uid a) y = dictGet reg y := by
  have huy : ¬ (uid = y) := fun hc => h hc.symm
  induction reg with
  | nil => simp [dictSet, dictGet, huy]
  | cons hd tl ih =>
    obtain ⟨u, b⟩ := hd
    by_cases hu : u = uid
    · subst hu
      simp [dictSet, dictGet, huy]
    · by_cases hy : u = y <;> simp [dictSet, dictGet, hu, hy, h, ih]

theorem keys_dictDel (reg : Registry) (uid : Nat) :
    (dictDel reg uid).map Prod.fst = (reg.map Prod.fst).filter (fun u => u ≠ uid) := by
  induction reg with
  | nil => rfl
  | cons hd tl ih =>
    obtain ⟨u, a⟩ := hd
    by_cases h : u = uid <;> simp [dictDel, List.filter_cons, h, ih]

theorem nodupKeys_dictDel (reg : Registry) (uid : Nat) (h : NodupKeys reg) :
    NodupKeys (dictDel reg uid) := by
  unfold NodupKeys at h ⊢
  rw [keys_dictDel]
  exact h.filter _

theorem mem_keys_dictSet (reg : Registry) (uid : Nat) (a : Alert) (v : Nat) :
    v ∈ (dictSet reg uid a).map Prod.fst ↔ v = uid ∨ v ∈ reg.map Prod.fst := by
  induction reg with
  | nil => simp [dictSet]
  | cons hd tl ih =>
    obtain ⟨u, b⟩ := hd
    by_cases hu : u = uid
    · subst hu
      simp [dictSet]
    · simp [dictSet, hu, ih]
      tauto

theorem nodupKeys_dictSet (reg : Registry) (uid : Nat) (a : Alert)
    (h : NodupKeys reg) : NodupKeys (dictSet reg uid a) := by
  induction reg with
  | nil => simp [dictSet, NodupKeys]
  | cons hd tl ih =>
    obtain ⟨u, b⟩ := hd
    unfold NodupKeys at h
    simp only [List.map_cons, List.nodup_cons] at h
    by_cases hu : u = uid
    · subst hu
      unfold NodupKeys
      have : dictSet ((u, b) :: tl) u a = (u, a) :: tl := by simp [dictSet]
      rw [this]
      simp only [List.map_cons, List.nodup_cons]
      exact ⟨h.1, h.2⟩
    · unfold NodupKeys at ih ⊢
      simp only [dictSet, hu, if_false, List.map_cons, List.nodup_cons]
      refine ⟨?_, ih h.2⟩
      intro hc
      rcases (mem_keys_dictSet tl uid a u).1 hc with hc1 | hc1
      · exact hu hc1
      · exact h.1 hc1

theorem condHolds_above_num (p t : ℚ) :
    condHolds "above" (.num p) t = .ok (decide (t < p)) := by
  by_cases h : t < p <;> simp [condHolds, pyCompareGt, h]

theorem condHolds_below_num (p t : ℚ) :
    condHolds "below" (.num p) t = .ok (decide (p < t)) := by
  by_cases h : p < t <;> simp [condHolds, pyCompareLt, h]

theorem condHolds_above_str (s : String) (t : ℚ) :
    condHolds "above" (.str s) t = .error () := by
  simp [condHolds, pyCompareGt]

/-- Every entry of `pre` fetches successfully and does not satisfy its
condition: the loop passes over it without firing or raising. -/
def quietBefore (api : String → Except Unit (Option ℚ))
    (pre : List (Nat × Alert)) : Prop :=
  ∀ p ∈ pre, ∃ v, get_crypto_price api p.2.crypto = Except.ok v ∧
    condHolds p.2.condition v p.2.threshold = Except.ok false

theorem alertCheckGo_quiet_append (api : String → Except Unit (Option ℚ))
    (n : Nat → Bool) (pre items : List (Nat × Alert)) (reg : Registry)
    (hq : quietBefore api pre) :
    alertCheckGo api n (pre ++ items) reg = alertCheckGo api n items reg := by
  induction pre with
  | nil => rfl
  | cons hd tl ih =>
    obtain ⟨uid, a⟩ := hd
    obtain ⟨v, hv, hc⟩ := hq (uid, a) (List.mem_cons_self _ _)
    have htl : quietBefore api tl := fun p hp => hq p (List.mem_cons_of_mem _ hp)
    simp only [List.cons_append, alertCheckGo, hv, hc]
    exact ih htl

/-- Structure of one pass: either nothing fired (registry untouched) or
exactly one owner fired, whose entry was deleted; a fired owner is a key of
the iterated entries and its notification succeeded. -/
theorem alertCheckGo_shape (api : String → Except Unit (Option ℚ))
    (n : Nat → Bool) (items : List (Nat × Alert)) (reg : Registry) :
    ((alertCheckGo api n items reg).notified = [] ∧
      (alertCheckGo api n items reg).registry = reg)
    ∨ ∃ u, (alertCheckGo api n items reg).notified = [u]
        ∧ (alertCheckGo api n items reg).registry = dictDel reg u
        ∧ u ∈ items.map Prod.fst ∧ n u = true := by
  induction items with
  | nil => exact Or.inl ⟨rfl, rfl⟩
  | cons hd tl ih =>
    obtain ⟨uid, a⟩ := hd
    cases hgp : get_crypto_price api a.crypto with
    | error e =>
      left
      constructor <;> simp [alertCheckGo, hgp]
    | ok v =>
      cases hch : condHolds a.condition v a.threshold with
      | error e =>
        left
        constructor <;> simp [alertCheckGo, hgp, hch]
      | ok b =>
        cases b with
        | false =>
          have hred : alertCheckGo api n ((uid, a) :: tl) reg = alertCheckGo api n tl reg := by
            simp [alertCheckGo, hgp, hch]
          rw [hred]
          rcases ih with h | ⟨u, h1, h2, h3, h4⟩
          · exact Or.inl h
          · exact Or.inr ⟨u, h1, h2, by simp [h3], h4⟩
        | true =>
          cases hn : n uid with
          | true =>
            right
            refine ⟨uid, ?_, ?_, by simp, hn⟩ <;> simp [alertCheckGo, hgp, hch, hn]
          | false =>
            left
            constructor <;> simp [alertCheckGo, hgp, hch, hn]

/-- A fired owner comes from the iterated entries. -/
theorem alertCheckGo_notified_sub (api : String → Except Unit (Option ℚ))
    (n : Nat → Bool) (items : List (Nat × Alert)) (reg : Registry) (u : Nat)
    (hu : u ∈ (alertCheckGo api n items reg).notified) : u ∈ items.map Prod.fst := by
  rcases alertCheckGo_shape api n items reg with ⟨h1, _⟩ | ⟨w, h1, _, h3, _⟩
  · rw [h1] at hu
    cases hu
  · rw [h1] at hu
    simp only [List.mem_singleton] at hu
    subst hu
    exact h3

theorem dictGet_middle (pre post : List (Nat × Alert)) (uid : Nat) (a : Alert)
    (h : uid ∉ pre.map Prod.fst) :
    dictGet (pre ++ (uid, a) :: post) uid = some a := by
  induction pre with
  | nil => simp [dictGet]
  | cons hd tl ih =>
    obtain ⟨u, b⟩ := hd
    simp only [List.map_cons, List.mem_cons, not_or] at h
    have hne : ¬ (u = uid) := fun hc => h.1 hc.symm
    simp only [List.cons_append, dictGet, hne, if_false]
    exact ih h.2

theorem nodupKeys_middle (pre post : List (Nat × Alert)) (uid : Nat) (a : Alert)
    (h : NodupKeys (pre ++ (uid, a) :: post)) :
    uid ∉ pre.map Prod.fst ∧ uid ∉ post.map Prod.fst := by
  unfold NodupKeys at h
  rw [List.map_append, List.map_cons] at h
  rw [List.nodup_append] at h
  obtain ⟨h1, h2, h3⟩ := h
  rw [List.nodup_cons] at h2
  constructor
  · intro hc
    exact h3 hc (List.mem_cons_self _ _)
  · exact h2.1

/-- C1 (amended): in an evaluation pass, an alert that the loop actually
reaches (every earlier entry fetched successfully and did not satisfy its
condition) fires iff the strict comparison holds: with condition `above` and
fetched price strictly greater than the threshold (and `send_message`
succeeding) exactly one notification is sent, to that owner, and the owner's
entry is absent from the registry after the pass; with `above` and price at
most the threshold (symmetrically `below` and price at least the threshold)
no notification is sent to that owner and the entry remains registered
unchanged. The reach proviso is forced: a firing or erroring earlier entry
ends the pass before later alerts are examined. -/
theorem alert_pass_fires_iff_strict_comparison
    (api : String → Except Unit (Option ℚ)) (n : Nat → Bool)
    (pre post : List (Nat × Alert)) (uid : Nat) (a : Alert) (p : ℚ)
    (hq : quietBefore api pre)
    (hnd : NodupKeys (pre ++ (uid, a) :: post))
    (hp : api a.crypto = Except.ok (some p))
    (hn : n uid = true) :
    (((a.condition = "above" ∧ a.threshold < p) ∨
      (a.condition = "below" ∧ p < a.threshold)) →
      (alert_check api n (pre ++ (uid, a) :: post)).notified = [uid] ∧
      dictGet (alert_check api n (pre ++ (uid, a) :: post)).registry uid = none) ∧
    (((a.condition = "above" ∧ p ≤ a.threshold) ∨
      (a.condition = "below" ∧ a.threshold ≤ p)) →
      uid ∉ (alert_check api n (pre ++ (uid, a) :: post)).notified ∧
      dictGet (alert_check api n (pre ++ (uid, a) :: post)).registry uid = some a) := by
  have hgp : get_crypto_price api a.crypto = Except.ok (.num p) := by
    simp [get_crypto_price, hp]
  have hkeys := nodupKeys_middle pre post uid a hnd
  have hred : alert_check api n (pre ++ (uid, a) :: post)
      = alertCheckGo api n ((uid, a) :: post) (pre ++ (uid, a) :: post) := by
    unfold alert_check
    exact alertCheckGo_quiet_append api n pre _ _ hq
  constructor
  · rintro (⟨hc, hlt⟩ | ⟨hc, hlt⟩) <;>
    · have hch : condHolds a.condition (.num p) a.threshold = Except.ok true := by
        simp [hc, condHolds_above_num, condHolds_below_num, hlt]
      rw [hred]
      refine ⟨by simp [alertCheckGo, hgp, hch, hn], ?_⟩
      simp only [alertCheckGo, hgp, hch, hn, if_true]
      exact dictGet_dictDel_self _ _
  · rintro (⟨hc, hle⟩ | ⟨hc, hle⟩) <;>
    · have hch : condHolds a.condition (.num p) a.threshold = Except.ok false := by
        simp [hc, condHolds_above_num, condHolds_below_num, not_lt.2 hle]
      rw [hred]
      have hred2 : alertCheckGo api n ((uid, a) :: post) (pre ++ (uid, a) :: post)
          = alertCheckGo api n post (pre ++ (uid, a) :: post) := by
        simp [alertCheckGo, hgp, hch]
      rw [hred2]
      rcases alertCheckGo_shape api n post (pre ++ (uid, a) :: post) with
        ⟨h1, h2⟩ | ⟨u, h1, h2, h3, _⟩
      · rw [h1, h2]
        exact ⟨by simp, dictGet_middle pre post uid a hkeys.1⟩
      · rw [h1, h2]
        have hne : uid ≠ u := fun hc2 => hkeys.2 (hc2 ▸ h3)
        refine ⟨by simp [hne], ?_⟩
        rw [dictGet_dictDel_ne _ _ _ hne]
        exact dictGet_middle pre post uid a hkeys.1

theorem alert_pass_fires_iff_strict_comparison_witness :
    (alert_check
        (fun c => if c = "bitcoin" then Except.ok (some 50001) else Except.error ())
        (fun _ => true) [(7, ⟨"bitcoin", 50000, "above"⟩)]).notified = [7] ∧
    dictGet (alert_check
        (fun c => if c = "bitcoin" then Except.ok (some 50001) else Except.error ())
        (fun _ => true) [(7, ⟨"bitcoin", 50000, "above"⟩)]).registry 7 = none :=
  (alert_pass_fires_iff_strict_comparison
      (fun c => if c = "bitcoin" then Except.ok (some 50001) else Except.error ())
      (fun _ => true) [] [] 7 ⟨"bitcoin", 50000, "above"⟩ 50001
      (fun p hp => absurd hp (List.not_mem_nil p))
      (by decide) rfl rfl).1
    (Or.inl ⟨rfl, by decide⟩)

/-- C1 counterexample: two alerts are registered, the fetched prices satisfy
both strict `above` comparisons, yet only the first owner is notified — the
second alert, though its comparison holds, produces no notification and
remains registered, because the first firing's `del` makes the next iterator
step raise `RuntimeError`. -/
theorem second_matching_alert_not_notified :
    get_crypto_price
        (fun c => if c = "bitcoin" then Except.ok (some 50001) else Except.ok (some 2000))
        "ethereum" = Except.ok (.num 2000) ∧
    ((1000 : ℚ) < 2000) ∧
    (alert_check
        (fun c => if c = "bitcoin" then Except.ok (some 50001) else Except.ok (some 2000))
        (fun _ => true)
        [(1, ⟨"bitcoin", 50000, "above"⟩), (2, ⟨"ethereum", 1000, "above"⟩)]).notified = [1] ∧
    dictGet (alert_check
        (fun c => if c = "bitcoin" then Except.ok (some 50001) else Except.ok (some 2000))
        (fun _ => true)
        [(1, ⟨"bitcoin", 50000, "above"⟩), (2, ⟨"ethereum", 1000, "above"⟩)]).registry 2
      = some ⟨"ethereum", 1000, "above"⟩ :=
  ⟨rfl, by decide, by decide, by decide⟩

/-- C2 (code evaluated at the failing input): with two registered alerts,
the first alert's fetch yields no numeric price (the coin is absent from the
JSON body, so `get_crypto_price` returns the str `'Price not available'`);
comparing that str against the float threshold raises `TypeError`, which
aborts the whole pass: no notification, nothing deleted, and the second
alert — whose condition holds and which the spec says must still be
evaluated and fire — is never examined. -/
theorem fetch_failure_aborts_pass :
    get_crypto_price
        (fun c => if c = "bitcoin" then Except.ok none else Except.ok (some 2000))
        "bitcoin" = Except.ok (.str "Price not available") ∧
    condHolds "above" (.num 2000) 1000 = Except.ok true ∧
    alert_check
        (fun c => if c = "bitcoin" then Except.ok none else Except.ok (some 2000))
        (fun _ => true)
        [(1, ⟨"bitcoin", 50000, "above"⟩), (2, ⟨"ethereum", 1000, "above"⟩)]
      = ⟨[(1, ⟨"bitcoin", 50000, "above"⟩), (2, ⟨"ethereum", 1000, "above"⟩)],
         [], some .typeError⟩ :=
  ⟨rfl, rfl, by decide⟩

/-- C3 (code evaluated at the failing input): the loop iterates
`user_alerts.items()` directly, with no snapshot; after the first alert
fires and is deleted, the next iterator step raises `RuntimeError`
(`dictionary changed size during iteration`), so the pass aborts: the second
alert, present when the pass began and with its condition holding, is never
evaluated. -/
theorem firing_aborts_iteration :
    condHolds "below" (.num 5) 10 = Except.ok true ∧
    alert_check (fun _ => Except.ok (some 5)) (fun _ => true)
        [(3, ⟨"dogecoin", 1, "above"⟩), (4, ⟨"solana", 10, "below"⟩)]
      = ⟨[(4, ⟨"solana", 10, "below"⟩)], [3], some .runtimeError⟩ :=
  ⟨rfl, by decide⟩

/-- C4 counterexample: two alerts whose conditions both hold; in the first
pass only the first fires, and the second alert — although its condition
held during that pass — is still registered when the next pass begins,
against the claim that every alert whose condition holds in a pass is
removed before the next pass. -/
theorem matching_alert_survives_into_next_pass :
    get_crypto_price
        (fun c => if c = "cardano" then Except.ok (some 3) else Except.ok (some 4))
        "ripple" = Except.ok (.num 4) ∧
    condHolds "above" (.num 4) 2 = Except.ok true ∧
    dictGet (alert_check
        (fun c => if c = "cardano" then Except.ok (some 3) else Except.ok (some 4))
        (fun _ => true)
        [(5, ⟨"cardano", 1, "above"⟩), (6, ⟨"ripple", 2, "above"⟩)]).registry 6
      = some ⟨"ripple", 2, "above"⟩ :=
  ⟨rfl, rfl, by decide⟩

/-- C4 (amended): notification is exactly-once per armed alert. Every owner
notified during a pass has been deleted from the registry before the next
pass begins and is not notified again by that next pass; and in the
single-alert scenario with the fetched price staying strictly above an
`above` threshold, the first pass notifies the owner exactly once and the
second pass notifies nobody. (The claim's stronger clause — that every alert
whose condition holds is removed before the next pass — fails when an
earlier firing aborts the pass first.) -/
theorem firing_exactly_once
    (api : String → Except Unit (Option ℚ)) (n : Nat → Bool)
    (uid : Nat) (a : Alert) (p : ℚ)
    (hc : a.condition = "above") (hp : api a.crypto = Except.ok (some p))
    (ht : a.threshold < p) (hn : n uid = true) :
    (∀ (reg : Registry) (u : Nat), u ∈ (alert_check api n reg).notified →
      dictGet (alert_check api n reg).registry u = none ∧
      u ∉ (alert_check api n (alert_check api n reg).registry).notified) ∧
    ((alert_check api n [(uid, a)]).notified = [uid] ∧
     (alert_check api n (alert_check api n [(uid, a)]).registry).notified = []) := by
  have hgp : get_crypto_price api a.crypto = Except.ok (.num p) := by
    simp [get_crypto_price, hp]
  have hch : condHolds a.condition (.num p) a.threshold = Except.ok true := by
    simp [hc, condHolds_above_num, ht]
  constructor
  · intro reg u hu
    rcases alertCheckGo_shape api n reg reg with ⟨h1, _⟩ | ⟨w, h1, h2, _, _⟩
    · rw [show alert_check api n reg = alertCheckGo api n reg reg from rfl, h1] at hu
      cases hu
    · have hu2 : u = w := by
        rw [show alert_check api n reg = alertCheckGo api n reg reg from rfl, h1] at hu
        simpa using hu
      subst hu2
      have hreg : (alert_check api n reg).registry = dictDel reg u := h2
      constructor
      · rw [hreg]
        exact dictGet_dictDel_self _ _
      · intro hcon
        have hmem := alertCheckGo_notified_sub api n
          ((alert_check api n reg).registry) ((alert_check api n reg).registry) u hcon
        rw [hreg, keys_dictDel] at hmem
        rcases List.mem_filter.1 hmem with ⟨_, hdec⟩
        simp at hdec
  · have h1 : alert_check api n [(uid, a)]
        = ⟨dictDel [(uid, a)] uid, [uid], some .runtimeError⟩ := by
      unfold alert_check
      simp [alertCheckGo, hgp, hch, hn]
    have h2 : dictDel [(uid, a)] uid = ([] : Registry) := by simp [dictDel]
    constructor
    · rw [h1]
    · rw [h1]
      show (alert_check api n (dictDel [(uid, a)] uid)).notified = []
      rw [h2]
      rfl

theorem firing_exactly_once_witness :
    (alert_check (fun _ => Except.ok (some 50001)) (fun _ => true)
        [(9, ⟨"bitcoin", 50000, "above"⟩)]).notified = [9] ∧
    (alert_check (fun _ => Except.ok (some 50001)) (fun _ => true)
        (alert_check (fun _ => Except.ok (some 50001)) (fun _ => true)
          [(9, ⟨"bitcoin", 50000, "above"⟩)]).registry).notified = [] :=
  (firing_exactly_once (fun _ => Except.ok (some 50001)) (fun _ => true)
      9 ⟨"bitcoin", 50000, "above"⟩ 50001 rfl rfl (by decide) rfl).2

/-- C7: deletion is conditioned on notification success. If the pass reaches
an alert whose condition is satisfied but `send_message` to its owner fails,
the exception propagates before the `del`: nobody is notified and the
registry is left exactly as it was (the alert is retried next tick).
Moreover, in any pass, an owner whose entry was present before and absent
afterwards was necessarily notified successfully. -/
theorem deletion_requires_notification
    (api : String → Except Unit (Option ℚ)) (n : Nat → Bool)
    (pre post : List (Nat × Alert)) (uid : Nat) (a : Alert) (p : ℚ)
    (hq : quietBefore api pre)
    (hp : api a.crypto = Except.ok (some p))
    (hcond : condHolds a.condition (PyVal.num p) a.threshold = Except.ok true)
    (hn : n uid = false) :
    (alert_check api n (pre ++ (uid, a) :: post)).registry = pre ++ (uid, a) :: post ∧
    (alert_check api n (pre ++ (uid, a) :: post)).notified = [] ∧
    ∀ (reg : Registry) (u : Nat),
      dictGet (alert_check api n reg).registry u = none →
      dictGet reg u = none ∨ u ∈ (alert_check api n reg).notified := by
  have hgp : get_crypto_price api a.crypto = Except.ok (.num p) := by
    simp [get_crypto_price, hp]
  have hred : alert_check api n (pre ++ (uid, a) :: post)
      = alertCheckGo api n ((uid, a) :: post) (pre ++ (uid, a) :: post) := by
    unfold alert_check
    exact alertCheckGo_quiet_append api n pre _ _ hq
  refine ⟨?_, ?_, ?_⟩
  · rw [hred]
    simp [alertCheckGo, hgp, hcond, hn]
  · rw [hred]
    simp [alertCheckGo, hgp, hcond, hn]
  · intro reg u hdel
    rcases alertCheckGo_shape api n reg reg with ⟨_, h2⟩ | ⟨w, h1, h2, _, _⟩
    · left
      rw [show alert_check api n reg = alertCheckGo api n reg reg from rfl, h2] at hdel
      exact hdel
    · by_cases hw : u = w
      · right
        rw [show alert_check api n reg = alertCheckGo api n reg reg from rfl, h1, hw]
        exact List.mem_singleton_self _
      · left
        rw [show alert_check api n reg = alertCheckGo api n reg reg from rfl, h2,
          dictGet_dictDel_ne _ _ _ hw] at hdel
        exact hdel

theorem deletion_requires_notification_witness :
    (alert_check (fun _ => Except.ok (some 50001)) (fun _ => false)
        [(7, ⟨"bitcoin", 50000, "above"⟩)]).registry = [(7, ⟨"bitcoin", 50000, "above"⟩)] ∧
    (alert_check (fun _ => Except.ok (some 50001)) (fun _ => false)
        [(7, ⟨"bitcoin", 50000, "above"⟩)]).notified = [] :=
  ⟨(deletion_requires_notification (fun _ => Except.ok (some 50001)) (fun _ => false)
      [] [] 7 ⟨"bitcoin", 50000, "above"⟩ 50001
      (fun p hp => absurd hp (List.not_mem_nil p)) rfl rfl rfl).1,
   (deletion_requires_notification (fun _ => Except.ok (some 50001)) (fun _ => false)
      [] [] 7 ⟨"bitcoin", 50000, "above"⟩ 50001
      (fun p hp => absurd hp (List.not_mem_nil p)) rfl rfl rfl).2.1⟩

theorem dictGet_foldl_set (as : List Alert) (reg : Registry) (uid : Nat) (a : Alert) :
    dictGet (as.foldl (fun r x => set_price_alert r uid x.crypto x.threshold x.condition)
      (dictSet reg uid a)) uid = some (as.getLastD a) := by
  induction as generalizing reg a with
  | nil => exact dictGet_dictSet_self reg uid a
  | cons x xs ih =>
    simp only [List.foldl_cons, List.getLastD_cons]
    exact ih (dictSet reg uid a) x

/-- C5: the registry keeps at most one live alert per owner and registration
is last-write-wins: right after a registration the owner maps to exactly the
registered alert; after any further sequence of registrations by the same
owner the owner maps to the most recent one; and both registration and an
evaluation pass preserve the at-most-one-entry-per-owner invariant. -/
theorem registry_one_alert_per_owner
    (reg : Registry) (uid : Nat) (c : String) (t : ℚ) (cond : String)
    (as : List Alert) (api : String → Except Unit (Option ℚ)) (n : Nat → Bool)
    (hnd : NodupKeys reg) :
    dictGet (set_price_alert reg uid c t cond) uid = some ⟨c, t, cond⟩ ∧
    dictGet (as.foldl (fun r x => set_price_alert r uid x.crypto x.threshold x.condition)
        (set_price_alert reg uid c t cond)) uid = some (as.getLastD ⟨c, t, cond⟩) ∧
    NodupKeys (set_price_alert reg uid c t cond) ∧
    NodupKeys (alert_check api n reg).registry := by
  refine ⟨dictGet_dictSet_self reg uid _, dictGet_foldl_set as reg uid _, ?_, ?_⟩
  · exact nodupKeys_dictSet reg uid _ hnd
  · unfold alert_check
    rcases alertCheckGo_shape api n reg reg with ⟨_, h2⟩ | ⟨w, _, h2, _, _⟩
    · rw [h2]
      exact hnd
    · rw [h2]
      exact nodupKeys_dictDel reg w hnd

theorem registry_one_alert_per_owner_witness :
    dictGet (set_price_alert [] 7 "btc" 50000 "above") 7 = some ⟨"btc", 50000, "above"⟩ :=
  (registry_one_alert_per_owner [] 7 "btc" 50000 "above" []
      (fun _ => Except.error ()) (fun _ => true) (by decide)).1

/-- C6 counterexample: two consecutive price lookups for the same query each
invoke the external fetch (the HTTP request count goes from 0 to 2, not 1),
and the second lookup returns the second response rather than the first's
value: `get_crypto_price` has no TTL cache in front of it. -/
theorem repeated_lookup_fetches_again :
    runLookups (fun k => if k = 0 then Except.ok (some 5) else Except.ok (some 7))
        ["bitcoin", "bitcoin"] 0
      = ([Except.ok (.num 5), Except.ok (.num 7)], 2) ∧ ((5 : ℚ) ≠ 7) :=
  ⟨rfl, by decide⟩

/-- C6 (amended): price lookups are not memoized: every invocation of
`get_crypto_price` performs its own external fetch, so a sequence of k
lookups issues exactly k HTTP requests, and the i-th lookup returns the
value computed from the i-th response, never a cached one. -/
theorem every_lookup_fetches
    (api : Nat → Except Unit (Option ℚ)) (queries : List String) (calls : Nat) :
    (runLookups api queries calls).2 = calls + queries.length ∧
    (runLookups api queries calls).1
      = queries.mapIdx (fun i q => get_crypto_price (fun _ => api (calls + i)) q) := by
  induction queries generalizing calls with
  | nil => simp [runLookups]
  | cons q qs ih =>
    constructor
    · show (runLookups api qs (calls + 1)).2 = calls + (q :: qs).length
      rw [(ih (calls + 1)).1, List.length_cons]
      omega
    · show get_crypto_price (fun _ => api calls) q :: (runLookups api qs (calls + 1)).1
        = (q :: qs).mapIdx (fun i qq => get_crypto_price (fun _ => api (calls + i)) qq)
      rw [List.mapIdx_cons, (ih (calls + 1)).2]
      have harg : (fun i (qq : String) => get_crypto_price (fun _ => api (calls + 1 + i)) qq)
          = (fun i (qq : String) => get_crypto_price (fun _ => api (calls + (i + 1))) qq) := by
        funext i qq
        have : calls + 1 + i = calls + (i + 1) := by omega
        rw [this]
      rw [harg]
      simp

/-- C8 counterexample: a `/setalert` invocation whose comparison token is
outside {above, below} and whose threshold text does not parse: the
`float(context.args[2])` at bot.py line 158 raises `ValueError` before the
condition check at line 159, so no error reply reaches the requester (the
registry is nonetheless unchanged) — against the claim that every such
invocation gets an error reply. -/
theorem invalid_condition_may_get_no_reply :
    ¬ (strLower "sideways" = "above" ∨ strLower "sideways" = "below") ∧
    pyFloat "oops" = none ∧
    set_alert_command ["btc", "sideways", "oops"] 7 [] = (none, []) :=
  ⟨by decide, by decide, by decide⟩

/-- C8 (amended): `/setalert` validation, with the proviso that the
error-reply guarantee for a bad comparison token holds when the threshold
text parses as a float (the source parses the threshold first); the registry
is untouched on every failing path. Fewer than three arguments: usage reply,
registry unchanged. Parseable threshold but lowercased comparison token
outside {above, below}: error reply, registry unchanged. Unparseable
threshold: `ValueError` propagates, no reply, registry still unchanged. -/
theorem set_alert_validation
    (args : List String) (uid : Nat) (reg : Registry) (p : ℚ) :
    (args.length < 3 → set_alert_command args uid reg = (some .usage, reg)) ∧
    (3 ≤ args.length → pyFloat (args.getD 2 "") = some p →
      ¬ (strLower (args.getD 1 "") = "above" ∨ strLower (args.getD 1 "") = "below") →
      set_alert_command args uid reg = (some .badCondition, reg)) ∧
    (3 ≤ args.length → pyFloat (args.getD 2 "") = none →
      set_alert_command args uid reg = (none, reg)) := by
  refine ⟨?_, ?_, ?_⟩
  · intro h
    simp [set_alert_command, h]
  · intro h hp hcond
    have hlt : ¬ (args.length < 3) := not_lt.2 h
    simp only [set_alert_command, if_neg hlt, hp]
    rw [if_pos hcond]
  · intro h hp
    have hlt : ¬ (args.length < 3) := not_lt.2 h
    simp only [set_alert_command, if_neg hlt, hp]

theorem set_alert_validation_witness :
    set_alert_command ["btc", "sideways", "50000"] 7 [] = (some .badCondition, []) :=
  (set_alert_validation ["btc", "sideways", "50000"] 7 [] 50000).2.1
    (by decide) (by decide) (by decide)

/-- C9: the market-data helpers are total over external failure: on a raised
`requests.RequestException` or a non-200 status, `get_top_cryptos` and
`get_trending_cryptos` return the empty list and `get_crypto_details`
returns `None`; each returns normally rather than propagating the
exception. -/
theorem helpers_total_on_failure {α β γ : Type} (s : Nat) (b1 : List α)
    (b2 : Option (List β)) (b3 : String → Option γ) (cid : String)
    (hs : s ≠ 200) :
    get_top_cryptos (.resp s b1) = [] ∧
    get_top_cryptos (.exn : HttpOutcome (List α)) = [] ∧
    get_trending_cryptos (.resp s b2) = [] ∧
    get_trending_cryptos (.exn : HttpOutcome (Option (List β))) = [] ∧
    get_crypto_details (.resp s b3) cid = none ∧
    get_crypto_details (.exn : HttpOutcome (String → Option γ)) cid = none := by
  refine ⟨?_, rfl, ?_, rfl, ?_, rfl⟩ <;>
    simp [get_top_cryptos, get_trending_cryptos, get_crypto_details, hs]

theorem helpers_total_on_failure_witness :
    get_top_cryptos (.resp 500 ([3] : List Nat)) = [] ∧
    get_top_cryptos (.exn : HttpOutcome (List Nat)) = [] ∧
    get_trending_cryptos (.resp 500 (some ([4] : List Nat))) = [] ∧
    get_trending_cryptos (.exn : HttpOutcome (Option (List Nat))) = [] ∧
    get_crypto_details (.resp 500 (fun _ => some (5 : Nat))) "bitcoin" = none ∧
    get_crypto_details (.exn : HttpOutcome (String → Option Nat)) "bitcoin" = none :=
  helpers_total_on_failure 500 [3] (some [4]) (fun _ => some 5) "bitcoin" (by decide)

/-- C10: registry mutations are framed per owner: registering an alert for
owner x changes no other owner's entry, and an evaluation pass leaves the
entry of every owner it did not notify (in particular every non-firing
alert) exactly as it was before the pass. -/
theorem registry_frame
    (reg : Registry) (x : Nat) (c : String) (t : ℚ) (cond : String) (y : Nat)
    (api : String → Except Unit (Option ℚ)) (n : Nat → Bool) (u : Nat)
    (hy : y ≠ x) (hu : u ∉ (alert_check api n reg).notified) :
    dictGet (set_price_alert reg x c t cond) y = dictGet reg y ∧
    dictGet (alert_check api n reg).registry u = dictGet reg u := by
  refine ⟨dictGet_dictSet_ne reg x _ y hy, ?_⟩
  unfold alert_check at hu ⊢
  rcases alertCheckGo_shape api n reg reg with ⟨_, h2⟩ | ⟨w, h1, h2, _, _⟩
  · rw [h2]
  · have hne : u ≠ w := by
      intro hc
      rw [h1, hc] at hu
      exact hu (List.mem_singleton_self w)
    rw [h2, dictGet_dictDel_ne _ _ _ hne]

theorem registry_frame_witness :
    dictGet (set_price_alert [(1, ⟨"btc", 50000, "above"⟩)] 2 "eth" 1000 "below") 1
      = dictGet [(1, ⟨"btc", 50000, "above"⟩)] 1 ∧
    dictGet (alert_check (fun _ => Except.error ()) (fun _ => true)
        [(1, ⟨"btc", 50000, "above"⟩)]).registry 1
      = dictGet [(1, ⟨"btc", 50000, "above"⟩)] 1 :=
  registry_frame [(1, ⟨"btc", 50000, "above"⟩)] 2 "eth" 1000 "below" 1
    (fun _ => Except.error ()) (fun _ => true) 1 (by decide) (by decide)
